import Mathlib

/-!
Formal model of `hf_for_legal.datasets.DatasetFormatter`
(file `src/hf_for_legal/datasets.py`).

The repository is a thin convenience layer over the Hugging Face
`datasets.Dataset` abstraction.  We embed it shallowly:

* a dataset is an ordered list of rows together with its schema
  (`column_names`), each row an association list from column name to value;
* `datasets.Dataset.map` applied to a function returning a one-key dict
  `{k: v}` is modelled by `Dataset.mapAdd` / `Dataset.mapAddE` (merge the
  returned key into each row, extending the schema when the key is new);
  `filter`, `rename_column` and `remove_columns` are modelled likewise from
  their documented behaviour;
* Python values flowing through the formatter are modelled by `Value`
  (strings, integers and `None`); `Value.pyStr` is Python `str()`;
* `hashlib.sha256(...).hexdigest()` is modelled by a full implementation of
  FIPS 180-4 SHA-256 over byte lists (`sha256hex`), fed with the UTF-8
  encoding of the string, exactly as `str(text).encode()` does;
* `uuid.uuid4()` draws 128 random bits; randomness is made explicit as an
  entropy stream `g : Nat → Nat` giving the raw bits for each row, and
  `uuid4str` performs the version/variant stamping and canonical formatting
  of RFC 4122 as `str(uuid.uuid4())` does;
* a Python exception is an `Except String` error; the per-row abort
  semantics of `map` over a raising function is `mapE` (stop at the first
  error, nothing is returned);
* the `DatasetFormatter` object holds a single dataset reference
  (`self.dataset`); each method is a function of that reference, and
  `Method.runState` returns both the method's result and the reference
  after the call.  Only `__call__` (modelled by `callRun`) reassigns the
  reference.

The `@memory` / `@timer` decorators on the Python methods only print
diagnostics and return the wrapped function's value unchanged; they are
not modelled.
-/

/-- A Python value stored in a dataset cell: a string, an integer, or
`None`.  (The repository's own tests exercise exactly these shapes.) -/
inductive Value where
  | vStr (s : String)
  | vInt (n : Int)
  | vNone
deriving DecidableEq, Repr

/-- Python `str()` on a `Value`: strings unchanged, integers in decimal
(with a leading `-` when negative), `None` printed as `"None"`. -/
def Value.pyStr : Value → String
  | .vStr s => s
  | .vInt n => toString n
  | .vNone => "None"

/-- A dataset row: an association list from column name to value
(a Python `dict`). -/
abbrev Row := List (String × Value)

/-- Reading `x[k]` on a row: the value of the first pair with key `k`, if any. -/
def Row.get (r : Row) (k : String) : Option Value :=
  (r.find? (fun p => p.1 = k)).map Prod.snd

/-- Total read of `x[k]`, defaulting to `None`; on well-formed datasets the
key is always present so the default is never hit. -/
def Row.getD (r : Row) (k : String) : Value :=
  (r.get k).getD Value.vNone

/-- Merging `{k: v}` into a row dict: overwrite the binding of `k` in
place when present (a dict has at most one), otherwise append it. -/
def Row.set : Row → String → Value → Row
  | [], k, v => [(k, v)]
  | p :: r, k, v => if p.1 = k then (k, v) :: r else p :: Row.set r k v

/-- The modelled `datasets.Dataset`: a schema plus an ordered list of rows. -/
structure Dataset where
  column_names : List String
  rows : List Row
deriving DecidableEq, Repr

/-- A dataset is well formed when every row carries exactly the schema's
columns, in schema order — the invariant `datasets.Dataset` maintains. -/
def Wellformed (d : Dataset) : Prop :=
  ∀ r ∈ d.rows, r.map Prod.fst = d.column_names

instance (d : Dataset) : Decidable (Wellformed d) := by
  unfold Wellformed; infer_instance

/-- Model of `Dataset.map` with a function returning the one-key dict `{k: f row}`:
merge the key into every row and extend the schema if `k` is new. -/
def Dataset.mapAdd (d : Dataset) (k : String) (f : Row → Value) : Dataset :=
  ⟨if k ∈ d.column_names then d.column_names else d.column_names ++ [k],
   d.rows.map (fun r => r.set k (f r))⟩

/-- Effectful list map that stops at the first error — the semantics of a
Python `map` whose row function may raise. -/
def mapE (f : α → Except String β) : List α → Except String (List β)
  | [] => .ok []
  | a :: l =>
    match f a with
    | .error e => .error e
    | .ok b =>
      match mapE f l with
      | .error e => .error e
      | .ok l' => .ok (b :: l')

/-- Model of `Dataset.map` with a fallible row function returning `{k: v}`. -/
def Dataset.mapAddE (d : Dataset) (k : String) (f : Row → Except String Value) :
    Except String Dataset :=
  match mapE (fun r => (f r).map (fun v => r.set k v)) d.rows with
  | .error e => .error e
  | .ok rows => .ok ⟨if k ∈ d.column_names then d.column_names
                     else d.column_names ++ [k], rows⟩

/-- Model of `Dataset.map` with a per-row-index function — used to model one fresh
random draw per row in `uuid`. -/
def Dataset.mapAddIdx (d : Dataset) (k : String) (f : Nat → Row → Value) : Dataset :=
  ⟨if k ∈ d.column_names then d.column_names else d.column_names ++ [k],
   d.rows.enum.map (fun p => p.2.set k (f p.1 p.2))⟩

/-- Model of `datasets.Dataset.filter`: keep the rows satisfying the predicate. -/
def Dataset.filter (d : Dataset) (p : Row → Bool) : Dataset :=
  ⟨d.column_names, d.rows.filter p⟩

/-- Model of `datasets.Dataset.rename_column`. -/
def Dataset.rename_column (d : Dataset) (o n : String) : Dataset :=
  ⟨d.column_names.map (fun c => if c = o then n else c),
   d.rows.map (fun r => r.map (fun p => if p.1 = o then (n, p.2) else p))⟩

/-- Model of `datasets.Dataset.remove_columns`. -/
def Dataset.remove_columns (d : Dataset) (cs : List String) : Dataset :=
  ⟨d.column_names.filter (fun c => ¬ cs.contains c),
   d.rows.map (fun r => r.filter (fun p => ¬ cs.contains p.1))⟩

/-! ### SHA-256 (FIPS 180-4), the model of `hashlib.sha256(...).hexdigest()` -/

/-- Truncation to a 32-bit word. -/
def w32 (x : Nat) : Nat := x % 4294967296

/-- Right rotation of a 32-bit word by `n` bits. -/
def rotr (n x : Nat) : Nat := w32 (x / 2 ^ n + x % 2 ^ n * 2 ^ (32 - n))

/-- Logical right shift of a 32-bit word. -/
def shr (n x : Nat) : Nat := x / 2 ^ n

/-- SHA-256 `Ch` function. -/
def shaCh (x y z : Nat) : Nat := x &&& y ^^^ (x ^^^ 4294967295) &&& z

/-- SHA-256 `Maj` function. -/
def shaMaj (x y z : Nat) : Nat := x &&& y ^^^ x &&& z ^^^ y &&& z

/-- SHA-256 big sigma-0. -/
def bigS0 (x : Nat) : Nat := rotr 2 x ^^^ rotr 13 x ^^^ rotr 22 x

/-- SHA-256 big sigma-1. -/
def bigS1 (x : Nat) : Nat := rotr 6 x ^^^ rotr 11 x ^^^ rotr 25 x

/-- SHA-256 small sigma-0. -/
def smallS0 (x : Nat) : Nat := rotr 7 x ^^^ rotr 18 x ^^^ shr 3 x

/-- SHA-256 small sigma-1. -/
def smallS1 (x : Nat) : Nat := rotr 17 x ^^^ rotr 19 x ^^^ shr 10 x

/-- SHA-256 round constants. -/
def sha256K : List Nat :=
  [1116352408, 1899447441, 3049323471, 3921009573, 961987163,
   1508970993, 2453635748, 2870763221, 3624381080, 310598401,
   607225278, 1426881987, 1925078388, 2162078206, 2614888103,
   3248222580, 3835390401, 4022224774, 264347078, 604807628,
   770255983, 1249150122, 1555081692, 1996064986, 2554220882,
   2821834349, 2952996808, 3210313671, 3336571891, 3584528711,
   113926993, 338241895, 666307205, 773529912, 1294757372,
   1396182291, 1695183700, 1986661051, 2177026350, 2456956037,
   2730485921, 2820302411, 3259730800, 3345764771, 3516065817,
   3600352804, 4094571909, 275423344, 430227734, 506948616,
   659060556, 883997877, 958139571, 1322822218, 1537002063,
   1747873779, 1955562222, 2024104815, 2227730452, 2361852424,
   2428436474, 2756734187, 3204031479, 3329325298]

/-- SHA-256 initial hash state. -/
def sha256H0 : List Nat :=
  [1779033703, 3144134277, 1013904242, 2773480762,
   1359893119, 2600822924, 528734635, 1541459225]

/-- Merkle–Damgård padding: append `0x80`, zeros to 56 mod 64, then the
bit length over 8 big-endian bytes. -/
def sha256pad (msg : List Nat) : List Nat :=
  let L := msg.length
  msg ++ [0x80] ++ List.replicate ((64 - (L + 9) % 64) % 64) 0 ++
    (List.range 8).map (fun i => 8 * L / 2 ^ (8 * (7 - i)) % 256)

/-- The 16 big-endian 32-bit words of a 64-byte block. -/
def blockWords (b : List Nat) : List Nat :=
  (List.range 16).map (fun j =>
    b.getD (4 * j) 0 * 2 ^ 24 + b.getD (4 * j + 1) 0 * 2 ^ 16 +
    b.getD (4 * j + 2) 0 * 2 ^ 8 + b.getD (4 * j + 3) 0)

/-- Message-schedule extension of the 16 block words to 64 words. -/
def sha256schedule (ws : List Nat) : List Nat :=
  (List.range 48).foldl
    (fun w _ =>
      w ++ [w32 (smallS1 (w.getD (w.length - 2) 0) + w.getD (w.length - 7) 0 +
                 smallS0 (w.getD (w.length - 15) 0) + w.getD (w.length - 16) 0)])
    ws

/-- One compression round over the working variables `[a,b,c,d,e,f,g,h]`. -/
def sha256round (w : List Nat) (st : List Nat) (i : Nat) : List Nat :=
  let a := st.getD 0 0
  let b := st.getD 1 0
  let c := st.getD 2 0
  let d := st.getD 3 0
  let e := st.getD 4 0
  let f := st.getD 5 0
  let g := st.getD 6 0
  let h := st.getD 7 0
  let t1 := w32 (h + bigS1 e + shaCh e f g + sha256K.getD i 0 + w.getD i 0)
  let t2 := w32 (bigS0 a + shaMaj a b c)
  [w32 (t1 + t2), a, b, c, w32 (d + t1), e, f, g]

/-- Compression of one 64-byte block into the running hash state. -/
def sha256block (h : List Nat) (block : List Nat) : List Nat :=
  let w := sha256schedule (blockWords block)
  let fin := (List.range 64).foldl (sha256round w) h
  List.zipWith (fun x y => w32 (x + y)) h fin

/-- The eight 32-bit words of the SHA-256 digest of a byte string. -/
def sha256words (msg : List Nat) : List Nat :=
  let padded := sha256pad msg
  (List.range (padded.length / 64)).foldl
    (fun h i => sha256block h ((padded.drop (64 * i)).take 64)) sha256H0

/-- The lowercase hex digit of `n % 16` (`Nat.digitChar` prints 0..15 as
the sixteen lowercase hexadecimal digits). -/
def hexDigitChar (n : Nat) : Char := Nat.digitChar (n % 16)

/-- Is the character one of the sixteen lowercase hexadecimal digits? -/
def isLowerHex (c : Char) : Bool :=
  c.isDigit || ('a' ≤ c && c ≤ 'f')

/-- Eight lowercase hex digits of a 32-bit word, most significant first. -/
def wordHex (w : Nat) : List Char :=
  (List.range 8).map (fun i => hexDigitChar (w / 2 ^ (4 * (7 - i))))

/-- Model of `hashlib.sha256(bytes).hexdigest()`: the 64-character lowercase
hexadecimal digest. -/
def sha256hex (msg : List Nat) : String :=
  ⟨(sha256words msg).map wordHex |>.flatten⟩

/-- UTF-8 encoding of a string as a byte list — Python `s.encode()`. -/
def strBytes (s : String) : List Nat :=
  s.toUTF8.toList.map (fun b => b.toNat)

/-- The inner `generate_hash` of `DatasetFormatter.hash`:
`hashlib.sha256(str(text).encode()).hexdigest()`. -/
def generate_hash (text : Value) : String :=
  sha256hex (strBytes text.pyStr)

/-! ### Python string normalization: `text.lower().strip()` -/

/-- The whitespace characters stripped by Python `str.strip()` (the ASCII
ones: space, tab, newline, carriage return, vertical tab, form feed). -/
def pyIsSpace (c : Char) : Bool :=
  c = ' ' || c = '\t' || c = '\n' || c = '\r' || c = '\x0b' || c = '\x0c'

/-- Strip leading and trailing whitespace from a character list. -/
def pyStripList (l : List Char) : List Char :=
  ((l.dropWhile pyIsSpace).reverse.dropWhile pyIsSpace).reverse

/-- The inner `normalize` of `normalize_text`: `text.lower().strip()`
(lower-case every character, then strip surrounding whitespace). -/
def pyNormalize (s : String) : String :=
  ⟨pyStripList (s.data.map Char.toLower)⟩

/-- Python `.lower()` is an attribute of `str` alone: on a non-string value the
row function of `normalize_text` raises an `AttributeError`. -/
def normalizeValue : Value → Except String Value
  | .vStr s => .ok (.vStr (pyNormalize s))
  | _ => .error "AttributeError: object has no attribute lower"

/-! ### `uuid.uuid4()` and its canonical string form -/

/-- The `i`-th hex nibble (big-endian, `i < 32`) of a version-4 UUID built
from 128 random bits `r`: RFC 4122 forces nibble 12 to `4` (version) and
the top two bits of nibble 16 to `10` (variant); all others are random. -/
def uuidNibble (r i : Nat) : Nat :=
  if i = 12 then 4
  else if i = 16 then 8 + r / 16 ^ 15 % 16 % 4
  else r / 16 ^ (31 - i) % 16

/-- Model of `str(uuid.uuid4())` for the random draw `r`: 32 lowercase hex digits in
the canonical 8-4-4-4-12 grouping. -/
def uuid4str (r : Nat) : String :=
  let cs := (List.range 32).map (fun i => hexDigitChar (uuidNibble r i))
  ⟨cs.take 8 ++ ['-'] ++ ((cs.drop 8).take 4) ++ ['-'] ++ ((cs.drop 12).take 4)
    ++ ['-'] ++ ((cs.drop 16).take 4) ++ ['-'] ++ cs.drop 20⟩

/-! ### Type conversion and numeric extraction -/

/-- The conversion targets exercised through `convert_column_type`
(`new_type=int` in the tests, `str` likewise a plain constructor). -/
inductive PyType where
  | int
  | str
deriving DecidableEq, Repr

/-- Model of `new_type(x)`: `str()` always succeeds; `int()` keeps integers, parses
decimal strings and raises on anything else. -/
def pyConvert : PyType → Value → Except String Value
  | .str, v => .ok (.vStr v.pyStr)
  | .int, .vInt n => .ok (.vInt n)
  | .int, .vStr s =>
    match s.toInt? with
    | some n => .ok (.vInt n)
    | none => .error ("ValueError: invalid literal for int: " ++ s)
  | .int, .vNone => .error "TypeError: int argument is NoneType"

/-- Reading a cell as a number for `np.mean`/`np.median`/`np.std`; a
non-numeric cell makes the numpy reduction raise. -/
def Value.toNum : Value → Except String ℚ
  | .vInt n => .ok (n : ℚ)
  | .vStr _ => .error "TypeError: cannot perform reduce on str"
  | .vNone => .error "TypeError: cannot perform reduce on NoneType"

/-- Insert into a sorted rational list. -/
def insortQ (x : ℚ) : List ℚ → List ℚ
  | [] => [x]
  | y :: l => if x ≤ y then x :: y :: l else y :: insortQ x l

/-- Ascending sort of a rational list (what `np.median` does internally). -/
def sortQ : List ℚ → List ℚ
  | [] => []
  | x :: l => insortQ x (sortQ l)

/-- Model of `np.mean`: the arithmetic mean. -/
def npMean (l : List ℚ) : ℚ := l.sum / l.length

/-- Model of `np.median`: middle element of the sorted data, or the average of the
two middle elements when the length is even. -/
def npMedian (l : List ℚ) : ℚ :=
  let s := sortQ l
  let n := s.length
  if n % 2 = 1 then s.getD (n / 2) 0
  else (s.getD (n / 2 - 1) 0 + s.getD (n / 2) 0) / 2

/-- The population variance, the square of `np.std`. -/
def npVar (l : List ℚ) : ℚ :=
  (l.map (fun x => (x - npMean l) ^ 2)).sum / l.length

/-- Model of `np.std`: the population standard deviation (denominator `n`). -/
noncomputable def npStd (l : List ℚ) : ℝ := Real.sqrt (npVar l)

/-- The dictionary returned by `compute_summary`. -/
structure Summary where
  mean : ℚ
  median : ℚ
  std : ℝ

/-! ### The `DatasetFormatter` methods -/

/-- The `ValueError` message raised when a referenced column is absent
(the source quotes the name; the quote marks are elided here). -/
def missingMsg (c : String) : String :=
  "Column " ++ c ++ " does not exist in the dataset."

namespace DatasetFormatter

/-- Model of `DatasetFormatter.hash`: validate the source column, then map
`generate_hash` of `x[column_name]` into `hash_column_name`. -/
def hash (d : Dataset) (column_name hash_column_name : String) :
    Except String Dataset :=
  if column_name ∈ d.column_names then
    .ok (d.mapAdd hash_column_name
      (fun x => .vStr (generate_hash (x.getD column_name))))
  else .error (missingMsg column_name)

/-- Model of `DatasetFormatter.uuid`: one fresh random draw `g i` per row, written
as a canonical UUID string into `uuid_column_name`; no validation. -/
def uuid (g : Nat → Nat) (d : Dataset) (uuid_column_name : String) : Dataset :=
  d.mapAddIdx uuid_column_name (fun i _ => .vStr (uuid4str (g i)))

/-- Python truthiness in `normalized_column_name if normalized_column_name
else column_name` (datasets.py line 229): both an absent target and the
falsy empty-string target fall back to the source column. -/
def targetOrSelf (normalized_column_name : Option String)
    (column_name : String) : String :=
  match normalized_column_name with
  | some s => if s = "" then column_name else s
  | none => column_name

/-- Model of `DatasetFormatter.normalize_text`: validate the source column, then map
`normalize` of `x[column_name]` into the target column (the source column
itself when the target is absent or the falsy `""`). -/
def normalize_text (d : Dataset) (column_name : String)
    (normalized_column_name : Option String) : Except String Dataset :=
  if column_name ∈ d.column_names then
    d.mapAddE (targetOrSelf normalized_column_name column_name)
      (fun x => normalizeValue (x.getD column_name))
  else .error (missingMsg column_name)

/-- Model of `DatasetFormatter.filter_rows`: delegate to `Dataset.filter`. -/
def filter_rows (d : Dataset) (condition : Row → Bool) : Dataset :=
  d.filter condition

/-- Model of `DatasetFormatter.rename_column`: validate the old name, delegate. -/
def rename_column (d : Dataset) (old_column_name new_column_name : String) :
    Except String Dataset :=
  if old_column_name ∈ d.column_names then
    .ok (d.rename_column old_column_name new_column_name)
  else .error (missingMsg old_column_name)

/-- Model of `DatasetFormatter.drop_column`: validate, then remove the column. -/
def drop_column (d : Dataset) (column_name : String) : Except String Dataset :=
  if column_name ∈ d.column_names then
    .ok (d.remove_columns [column_name])
  else .error (missingMsg column_name)

/-- Model of `DatasetFormatter.add_constant_column`: map the constant into the
column; the source performs no validation here. -/
def add_constant_column (d : Dataset) (column_name : String)
    (constant_value : Value) : Dataset :=
  d.mapAdd column_name (fun _ => constant_value)

/-- Model of `DatasetFormatter.convert_column_type`: validate, then map
`new_type(x[column_name])` back into the column. -/
def convert_column_type (d : Dataset) (column_name : String)
    (new_type : PyType) : Except String Dataset :=
  if column_name ∈ d.column_names then
    d.mapAddE column_name (fun x => pyConvert new_type (x.getD column_name))
  else .error (missingMsg column_name)

/-- Model of `DatasetFormatter.fill_missing`: validate, then replace `None` cells of
the column by `fill_value`. -/
def fill_missing (d : Dataset) (column_name : String) (fill_value : Value) :
    Except String Dataset :=
  if column_name ∈ d.column_names then
    .ok (d.mapAdd column_name
      (fun x => if x.getD column_name = .vNone then fill_value
                else x.getD column_name))
  else .error (missingMsg column_name)

/-- Model of `DatasetFormatter.compute_summary`: validate, read the column, and
return `np.mean`, `np.median` and `np.std` of its numeric values. -/
noncomputable def compute_summary (d : Dataset) (column_name : String) :
    Except String Summary :=
  if column_name ∈ d.column_names then
    match mapE Value.toNum (d.rows.map (fun r => r.getD column_name)) with
    | .error e => .error e
    | .ok nums => .ok ⟨npMean nums, npMedian nums, npStd nums⟩
  else .error (missingMsg column_name)

end DatasetFormatter

/-- One invocation of a dataset-returning `DatasetFormatter` method, with
its arguments. -/
inductive Method where
  | hash (column_name hash_column_name : String)
  | uuid (uuid_column_name : String)
  | normalize_text (column_name : String) (normalized_column_name : Option String)
  | filter_rows (condition : Row → Bool)
  | rename_column (old_column_name new_column_name : String)
  | drop_column (column_name : String)
  | add_constant_column (column_name : String) (constant_value : Value)
  | convert_column_type (column_name : String) (new_type : PyType)
  | fill_missing (column_name : String) (fill_value : Value)

/-- Run a method against the formatter's current dataset, with entropy
stream `g` for the random draws of `uuid`. -/
def Method.run (g : Nat → Nat) (d : Dataset) : Method → Except String Dataset
  | .hash c h => DatasetFormatter.hash d c h
  | .uuid u => .ok (DatasetFormatter.uuid g d u)
  | .normalize_text c t => DatasetFormatter.normalize_text d c t
  | .filter_rows p => .ok (DatasetFormatter.filter_rows d p)
  | .rename_column o n => DatasetFormatter.rename_column d o n
  | .drop_column c => DatasetFormatter.drop_column d c
  | .add_constant_column c v => .ok (DatasetFormatter.add_constant_column d c v)
  | .convert_column_type c t => DatasetFormatter.convert_column_type d c t
  | .fill_missing c v => DatasetFormatter.fill_missing d c v

/-- A method call seen from the formatter object: the returned value
together with `self.dataset` after the call.  No method assigns to
`self.dataset`, so the held reference is returned unchanged. -/
def Method.runState (g : Nat → Nat) (s : Dataset) (m : Method) :
    Except String Dataset × Dataset :=
  (m.run g s, s)

/-- Does the method draw randomness (is it `uuid`)? -/
def Method.isUuid : Method → Bool
  | .uuid _ => true
  | _ => false

/-- The column name whose absence the method turns into a `ValueError`
before doing anything (`none` for the unvalidated methods). -/
def Method.requiredColumn : Method → Option String
  | .hash c _ => some c
  | .normalize_text c _ => some c
  | .rename_column o _ => some o
  | .drop_column c => some c
  | .convert_column_type c _ => some c
  | .fill_missing c _ => some c
  | _ => none

/-- Model of `DatasetFormatter.__call__`: `self.dataset = self.hash(...)` (with the
default source column `"document"`), then `self.dataset = self.uuid(...)`;
returns the final dataset.  The pair is (returned value, `self.dataset`
after the call); a raise from `hash` leaves the reference untouched. -/
def callRun (g : Nat → Nat) (s : Dataset) (hash_column_name uuid_column_name : String) :
    Except String Dataset × Dataset :=
  match DatasetFormatter.hash s "document" hash_column_name with
  | .error e => (.error e, s)
  | .ok d1 =>
    let d2 := DatasetFormatter.uuid g d1 uuid_column_name
    (.ok d2, d2)

/-! ### Association-list and `mapE` lemmas -/

theorem Row.get_set_self (r : Row) (k : String) (v : Value) :
    (r.set k v).get k = some v := by
  induction r with
  | nil => simp [Row.set, Row.get, List.find?]
  | cons p r ih =>
    by_cases h : p.1 = k
    · simp [Row.set, h, Row.get, List.find?]
    · simpa [Row.set, h, Row.get, List.find?] using ih

theorem Row.get_cons (p : String × Value) (r : Row) (k : String) :
    Row.get (p :: r) k = if p.1 = k then some p.2 else Row.get r k := by
  by_cases h : p.1 = k
  · rw [Row.get, List.find?_cons_of_pos _ (by simp [h]), if_pos h]
    rfl
  · rw [Row.get, List.find?_cons_of_neg _ (by simp [h]), if_neg h]
    rfl

theorem Row.get_set_ne (r : Row) (k k' : String) (v : Value) (h : k' ≠ k) :
    (r.set k v).get k' = r.get k' := by
  induction r with
  | nil =>
    show Row.get [(k, v)] k' = Row.get [] k'
    rw [Row.get_cons, if_neg (fun hh => h hh.symm)]
  | cons p r ih =>
    show Row.get (if p.1 = k then (k, v) :: r else p :: Row.set r k v) k' = _
    by_cases hp : p.1 = k
    · rw [if_pos hp, Row.get_cons, Row.get_cons,
        if_neg (fun hh => h hh.symm), if_neg (fun hh => h (hh.symm.trans hp))]
    · rw [if_neg hp, Row.get_cons, Row.get_cons]
      by_cases hp' : p.1 = k'
      · rw [if_pos hp', if_pos hp']
      · rw [if_neg hp', if_neg hp', ih]

theorem Row.getD_set_self (r : Row) (k : String) (v : Value) :
    (r.set k v).getD k = v := by
  simp [Row.getD, Row.get_set_self]

theorem Row.set_set_self (r : Row) (k : String) (v v' : Value) :
    (r.set k v).set k v' = r.set k v' := by
  induction r with
  | nil => simp [Row.set]
  | cons p r ih =>
    by_cases h : p.1 = k
    · simp [Row.set, h]
    · simp [Row.set, h, ih]

theorem mapE_eq_ok_iff (f : α → Except String β) (l : List α) (l' : List β) :
    mapE f l = .ok l' ↔ List.Forall₂ (fun a b => f a = .ok b) l l' := by
  induction l generalizing l' with
  | nil =>
    cases l' <;> simp [mapE]
  | cons a l ih =>
    cases hfa : f a with
    | error e =>
      simp only [mapE, hfa]
      constructor
      · intro h; exact Except.noConfusion h
      · intro h
        cases h with
        | cons hb ht => rw [hfa] at hb; exact Except.noConfusion hb
    | ok b =>
      cases hml : mapE f l with
      | error e =>
        simp only [mapE, hfa, hml]
        constructor
        · intro h; exact Except.noConfusion h
        · intro h
          cases h with
          | cons hb ht =>
            have h2 := (ih _).2 ht
            rw [hml] at h2
            exact Except.noConfusion h2
      | ok l₀ =>
        simp only [mapE, hfa, hml, Except.ok.injEq]
        constructor
        · intro h
          subst h
          exact List.Forall₂.cons hfa ((ih _).1 hml)
        · intro h
          cases h with
          | cons hb ht =>
            have h2 := (ih _).2 ht
            rw [hml] at h2
            injection h2 with h2
            rw [hfa] at hb
            injection hb with hb
            rw [hb, h2]

/-! ### Idempotence of `lower` and `strip` -/

theorem toLower_toLower (c : Char) : c.toLower.toLower = c.toLower := by
  by_cases h : 65 ≤ c.toNat ∧ c.toNat ≤ 90
  · have hc : c = Char.ofNat c.toNat := (Char.ofNat_toNat c).symm
    obtain ⟨h1, h2⟩ := h
    rw [hc]
    set m := c.toNat with hm
    clear_value m
    interval_cases m <;> decide
  · have he : c.toLower = c := by
      rw [Char.toLower]
      simp only [ge_iff_le]
      rw [if_neg h]
    rw [he, he]

theorem pyIsSpace_toLower (c : Char) : pyIsSpace c.toLower = pyIsSpace c := by
  by_cases h : 65 ≤ c.toNat ∧ c.toNat ≤ 90
  · have hc : c = Char.ofNat c.toNat := (Char.ofNat_toNat c).symm
    obtain ⟨h1, h2⟩ := h
    rw [hc]
    set m := c.toNat with hm
    clear_value m
    interval_cases m <;> decide
  · have he : c.toLower = c := by
      rw [Char.toLower]
      simp only [ge_iff_le]
      rw [if_neg h]
    rw [he]

theorem dropWhile_idem (p : α → Bool) (l : List α) :
    (l.dropWhile p).dropWhile p = l.dropWhile p := by
  induction l with
  | nil => rfl
  | cons a l ih =>
    by_cases h : p a
    · simp [List.dropWhile_cons, h, ih]
    · simp [List.dropWhile_cons, h]

theorem map_dropWhile (f : α → α) (p : α → Bool) (l : List α)
    (hf : ∀ a, p (f a) = p a) :
    (l.dropWhile p).map f = (l.map f).dropWhile p := by
  induction l with
  | nil => rfl
  | cons a l ih =>
    by_cases h : p a
    · simp [List.dropWhile_cons, h, ih, hf]
    · simp [List.dropWhile_cons, h, hf]

theorem dropWhile_eq_self_of_isPrefixOf (p : α → Bool) (l x : List α)
    (hx : x <+: l) (hl : l.dropWhile p = l) : x.dropWhile p = x := by
  cases x with
  | nil => rfl
  | cons a xs =>
    obtain ⟨t, ht⟩ := hx
    subst ht
    rw [List.cons_append] at hl
    by_cases h : p a
    · rw [List.dropWhile_cons, if_pos h] at hl
      have hle := (List.dropWhile_suffix (l := xs ++ t) p).length_le
      rw [hl] at hle
      simp at hle
    · rw [List.dropWhile_cons, if_neg h]

theorem pyStripList_idem (l : List Char) :
    pyStripList (pyStripList l) = pyStripList l := by
  set p := pyIsSpace
  set s := l.dropWhile p with hs
  have hss : s.dropWhile p = s := dropWhile_idem p l
  set m := (s.reverse.dropWhile p).reverse with hm
  have h1 : pyStripList l = m := rfl
  have hmrev : m.reverse = s.reverse.dropWhile p := by rw [hm, List.reverse_reverse]
  have h2 : m.dropWhile p = m := by
    apply dropWhile_eq_self_of_isPrefixOf p s
    · rw [← List.reverse_suffix, hmrev]
      exact List.dropWhile_suffix p
    · exact hss
  have h3 : m.reverse.dropWhile p = m.reverse := by
    rw [hmrev]
    exact dropWhile_idem p s.reverse
  rw [h1]
  show ((m.dropWhile p).reverse.dropWhile p).reverse = m
  rw [h2, h3, List.reverse_reverse]

theorem pyNormalize_idem (s : String) :
    pyNormalize (pyNormalize s) = pyNormalize s := by
  rw [pyNormalize, pyNormalize]
  have hdata : (String.mk (pyStripList (s.data.map Char.toLower))).data
      = pyStripList (s.data.map Char.toLower) := rfl
  rw [hdata]
  have hcomp : Char.toLower ∘ Char.toLower = Char.toLower := by
    funext c
    exact toLower_toLower c
  have hmap : (pyStripList (s.data.map Char.toLower)).map Char.toLower
      = pyStripList (s.data.map Char.toLower) := by
    simp only [pyStripList]
    rw [List.map_reverse, map_dropWhile _ _ _ pyIsSpace_toLower,
      List.map_reverse, map_dropWhile _ _ _ pyIsSpace_toLower,
      List.map_map, hcomp]
  rw [hmap, pyStripList_idem]

/-! ### Canonical shape of `uuid4str` -/

/-- A 36-character canonical version-4 UUID string: dashes at positions
8, 13, 18 and 23, lowercase hex digits elsewhere, the version digit `4` at
position 14 and a variant digit in `8..b` at position 19. -/
def IsUuid4String (s : String) : Prop :=
  s.length = 36 ∧
  s.data.getD 8 ' ' = '-' ∧ s.data.getD 13 ' ' = '-' ∧
  s.data.getD 18 ' ' = '-' ∧ s.data.getD 23 ' ' = '-' ∧
  s.data.getD 14 ' ' = '4' ∧
  s.data.getD 19 ' ' ∈ ['8', '9', 'a', 'b'] ∧
  ∀ c ∈ s.data, c = '-' ∨ isLowerHex c = true

theorem hexDigitChar_isLowerHex (n : Nat) : isLowerHex (hexDigitChar n) = true := by
  have h : n % 16 < 16 := Nat.mod_lt _ (by norm_num)
  rw [hexDigitChar]
  set m := n % 16 with hm
  clear_value m
  interval_cases m <;> decide

theorem uuid4str_canonical (r : Nat) : IsUuid4String (uuid4str r) := by
  have hrange : List.range 32 = [0, 1, 2, 3, 4, 5, 6, 7, 8, 9, 10, 11, 12,
      13, 14, 15, 16, 17, 18, 19, 20, 21, 22, 23, 24, 25, 26, 27, 28, 29,
      30, 31] := rfl
  have hdata : (uuid4str r).data =
      [hexDigitChar (uuidNibble r 0), hexDigitChar (uuidNibble r 1),
       hexDigitChar (uuidNibble r 2), hexDigitChar (uuidNibble r 3),
       hexDigitChar (uuidNibble r 4), hexDigitChar (uuidNibble r 5),
       hexDigitChar (uuidNibble r 6), hexDigitChar (uuidNibble r 7), '-',
       hexDigitChar (uuidNibble r 8), hexDigitChar (uuidNibble r 9),
       hexDigitChar (uuidNibble r 10), hexDigitChar (uuidNibble r 11), '-',
       hexDigitChar (uuidNibble r 12), hexDigitChar (uuidNibble r 13),
       hexDigitChar (uuidNibble r 14), hexDigitChar (uuidNibble r 15), '-',
       hexDigitChar (uuidNibble r 16), hexDigitChar (uuidNibble r 17),
       hexDigitChar (uuidNibble r 18), hexDigitChar (uuidNibble r 19), '-',
       hexDigitChar (uuidNibble r 20), hexDigitChar (uuidNibble r 21),
       hexDigitChar (uuidNibble r 22), hexDigitChar (uuidNibble r 23),
       hexDigitChar (uuidNibble r 24), hexDigitChar (uuidNibble r 25),
       hexDigitChar (uuidNibble r 26), hexDigitChar (uuidNibble r 27),
       hexDigitChar (uuidNibble r 28), hexDigitChar (uuidNibble r 29),
       hexDigitChar (uuidNibble r 30), hexDigitChar (uuidNibble r 31)] := by
    rw [uuid4str]
    rw [hrange]
    rfl
  have hv4 : uuidNibble r 12 = 4 := rfl
  have hvariant : uuidNibble r 16 = 8 + r / 16 ^ 15 % 16 % 4 := rfl
  refine ⟨?_, ?_, ?_, ?_, ?_, ?_, ?_, ?_⟩
  · show (uuid4str r).data.length = 36
    rw [hdata]
    rfl
  · rw [hdata]; rfl
  · rw [hdata]; rfl
  · rw [hdata]; rfl
  · rw [hdata]; rfl
  · rw [hdata]
    show hexDigitChar (uuidNibble r 12) = '4'
    rw [hv4]
    rfl
  · rw [hdata]
    show hexDigitChar (uuidNibble r 16) ∈ _
    rw [hvariant]
    have h4 : r / 16 ^ 15 % 16 % 4 < 4 := Nat.mod_lt _ (by norm_num)
    interval_cases h : r / 16 ^ 15 % 16 % 4 <;> decide
  · rw [hdata]
    intro c hc
    simp only [List.mem_cons, List.not_mem_nil, or_false] at hc
    rcases hc with h | h | h | h | h | h | h | h | h | h | h | h | h | h |
      h | h | h | h | h | h | h | h | h | h | h | h | h | h | h | h | h |
      h | h | h | h | h <;>
      subst h <;>
      first
        | exact Or.inl rfl
        | exact Or.inr (hexDigitChar_isLowerHex _)

/-! ### `mapAdd` helpers -/

theorem mapAdd_rows_length (d : Dataset) (k : String) (f : Row → Value) :
    (d.mapAdd k f).rows.length = d.rows.length := by
  simp [Dataset.mapAdd]

theorem mapAdd_rows_getElem (d : Dataset) (k : String) (f : Row → Value)
    (i : Nat) (hi : i < d.rows.length) (hi' : i < (d.mapAdd k f).rows.length) :
    (d.mapAdd k f).rows[i] = (d.rows[i]).set k (f d.rows[i]) := by
  simp [Dataset.mapAdd]

theorem mapAdd_mem_column_names (d : Dataset) (k : String) (f : Row → Value) :
    k ∈ (d.mapAdd k f).column_names := by
  rw [Dataset.mapAdd]
  by_cases h : k ∈ d.column_names <;> simp [h]

theorem mapAdd_column_names_mono (d : Dataset) (k c : String) (f : Row → Value)
    (h : c ∈ d.column_names) : c ∈ (d.mapAdd k f).column_names := by
  rw [Dataset.mapAdd]
  by_cases hk : k ∈ d.column_names <;> simp [hk, h]

theorem mapAdd_column_names_of_mem (d : Dataset) (k : String) (f : Row → Value)
    (h : k ∈ d.column_names) : (d.mapAdd k f).column_names = d.column_names := by
  simp [Dataset.mapAdd, h]

theorem mapAddIdx_rows_length (d : Dataset) (k : String) (f : Nat → Row → Value) :
    (d.mapAddIdx k f).rows.length = d.rows.length := by
  simp [Dataset.mapAddIdx, List.enum_length]

theorem mapAddIdx_rows_getElem (d : Dataset) (k : String) (f : Nat → Row → Value)
    (i : Nat) (hi : i < d.rows.length)
    (hi' : i < (d.mapAddIdx k f).rows.length) :
    (d.mapAddIdx k f).rows[i] = (d.rows[i]).set k (f i d.rows[i]) := by
  simp only [Dataset.mapAddIdx]
  rw [List.getElem_map, List.getElem_enum]

theorem mapAddIdx_mem_column_names (d : Dataset) (k : String)
    (f : Nat → Row → Value) : k ∈ (d.mapAddIdx k f).column_names := by
  rw [Dataset.mapAddIdx]
  by_cases h : k ∈ d.column_names <;> simp [h]

theorem mapAddIdx_column_names_mono (d : Dataset) (k c : String)
    (f : Nat → Row → Value) (h : c ∈ d.column_names) :
    c ∈ (d.mapAddIdx k f).column_names := by
  rw [Dataset.mapAddIdx]
  by_cases hk : k ∈ d.column_names <;> simp [hk, h]

theorem mapAddIdx_column_names_of_mem (d : Dataset) (k : String)
    (f : Nat → Row → Value) (h : k ∈ d.column_names) :
    (d.mapAddIdx k f).column_names = d.column_names := by
  simp [Dataset.mapAddIdx, h]

/-! ### Claim theorems -/

/-- C1: for every dataset `D` and column `C` present in `D`,
`hash(column_name=C, hash_column_name=H)` returns a dataset in which, for
every row index `i`, the value of column `H` equals the SHA-256
hexadecimal digest of the UTF-8 encoding of the string representation of
`D[i][C]`, and all other columns of row `i` are unchanged. -/
theorem hash_adds_sha256_column (d : Dataset) (C H : String)
    (hwf : Wellformed d) (hC : C ∈ d.column_names) :
    ∃ d', DatasetFormatter.hash d C H = .ok d' ∧
      d'.rows.length = d.rows.length ∧
      ∀ i (hi : i < d.rows.length) (hi' : i < d'.rows.length),
        Row.get d'.rows[i] H =
          some (.vStr (sha256hex (strBytes (Value.pyStr (Row.getD d.rows[i] C))))) ∧
        ∀ k, k ≠ H → Row.get d'.rows[i] k = Row.get d.rows[i] k := by
  refine ⟨d.mapAdd H (fun x => .vStr (generate_hash (x.getD C))), ?_, ?_, ?_⟩
  · rw [DatasetFormatter.hash, if_pos hC]
  · exact mapAdd_rows_length d H _
  · intro i hi hi'
    rw [mapAdd_rows_getElem d H _ i hi hi']
    exact ⟨by rw [Row.get_set_self]; rfl, fun k hk => Row.get_set_ne _ _ _ _ hk⟩

/-- The dataset of the repository's own test fixture (one row shown). -/
def dW : Dataset :=
  ⟨["document"], [[("document", Value.vStr "This is a test document.")]]⟩

/-- Witness for C1 at the test-fixture dataset. -/
theorem hash_adds_sha256_column_witness :
    Wellformed dW ∧ "document" ∈ dW.column_names ∧
    (∃ d', DatasetFormatter.hash dW "document" "hash" = .ok d' ∧
      d'.rows.length = dW.rows.length ∧
      ∀ i (hi : i < dW.rows.length) (hi' : i < d'.rows.length),
        Row.get d'.rows[i] "hash" =
          some (.vStr (sha256hex (strBytes (Value.pyStr (Row.getD dW.rows[i] "document"))))) ∧
        ∀ k, k ≠ "hash" → Row.get d'.rows[i] k = Row.get dW.rows[i] k) :=
  ⟨by decide, by decide,
    hash_adds_sha256_column dW "document" "hash" (by decide) (by decide)⟩

/-- C7: `filter_rows(p)` returns exactly the rows satisfying `p`, in the
same relative order (a sublist of the original rows), with the kept rows
and the schema unchanged. -/
theorem filter_rows_exact (d : Dataset) (p : Row → Bool) :
    (DatasetFormatter.filter_rows d p).column_names = d.column_names ∧
    List.Sublist (DatasetFormatter.filter_rows d p).rows d.rows ∧
    (∀ r : Row, r ∈ (DatasetFormatter.filter_rows d p).rows ↔
      r ∈ d.rows ∧ p r = true) ∧
    (DatasetFormatter.filter_rows d p).rows.length = d.rows.countP p := by
  refine ⟨rfl, List.filter_sublist _, fun r => List.mem_filter, ?_⟩
  show (d.rows.filter p).length = _
  rw [List.countP_eq_length_filter]

/-- C2: any operation referencing a missing column raises the
`ValueError` naming that column and leaves the held reference unchanged
(nothing is persisted); likewise `compute_summary`. -/
theorem missing_column_raises (g : Nat → Nat) (d : Dataset) (m : Method)
    (c : String) (h1 : m.requiredColumn = some c) (h2 : c ∉ d.column_names) :
    Method.runState g d m = (.error (missingMsg c), d) ∧
    DatasetFormatter.compute_summary d c = .error (missingMsg c) := by
  constructor
  · cases m with
    | hash cn hn =>
      simp only [Method.requiredColumn, Option.some.injEq] at h1
      subst h1
      simp [Method.runState, Method.run, DatasetFormatter.hash, h2]
    | uuid u => exact absurd h1 (by simp [Method.requiredColumn])
    | normalize_text cn t =>
      simp only [Method.requiredColumn, Option.some.injEq] at h1
      subst h1
      simp [Method.runState, Method.run, DatasetFormatter.normalize_text, h2]
    | filter_rows p => exact absurd h1 (by simp [Method.requiredColumn])
    | rename_column o n =>
      simp only [Method.requiredColumn, Option.some.injEq] at h1
      subst h1
      simp [Method.runState, Method.run, DatasetFormatter.rename_column, h2]
    | drop_column cn =>
      simp only [Method.requiredColumn, Option.some.injEq] at h1
      subst h1
      simp [Method.runState, Method.run, DatasetFormatter.drop_column, h2]
    | add_constant_column cn v => exact absurd h1 (by simp [Method.requiredColumn])
    | convert_column_type cn t =>
      simp only [Method.requiredColumn, Option.some.injEq] at h1
      subst h1
      simp [Method.runState, Method.run, DatasetFormatter.convert_column_type, h2]
    | fill_missing cn v =>
      simp only [Method.requiredColumn, Option.some.injEq] at h1
      subst h1
      simp [Method.runState, Method.run, DatasetFormatter.fill_missing, h2]
  · simp [DatasetFormatter.compute_summary, h2]

/-- Witness for C2: dropping an absent column on the fixture dataset. -/
theorem missing_column_raises_witness :
    Method.requiredColumn (.drop_column "missing") = some "missing" ∧
    "missing" ∉ dW.column_names ∧
    (Method.runState (fun _ => 0) dW (.drop_column "missing") =
      (.error (missingMsg "missing"), dW) ∧
     DatasetFormatter.compute_summary dW "missing" =
      .error (missingMsg "missing")) :=
  ⟨rfl, by decide,
    missing_column_raises (fun _ => 0) dW (.drop_column "missing") "missing"
      rfl (by decide)⟩

/-- The all-zeros entropy stream. -/
def g0 : Nat → Nat := fun _ => 0

/-- The all-ones entropy stream. -/
def g1 : Nat → Nat := fun _ => 1

/-- C3 counterexample: `uuid` run twice on the same dataset with the same
argument gives different results under different random draws — the
formatter is not deterministic as a whole. -/
theorem uuid_not_deterministic :
    Method.run g0 dW (.uuid "uuid") ≠ Method.run g1 dW (.uuid "uuid") := by
  intro h
  simp only [Method.run, Except.ok.injEq] at h
  exact absurd h (by decide)

/-- C3 amended: every operation other than `uuid` is deterministic — its
output does not depend on the entropy stream. -/
theorem run_deterministic_unless_uuid (g g' : Nat → Nat) (d : Dataset)
    (m : Method) (h : m.isUuid = false) :
    Method.run g d m = Method.run g' d m := by
  cases m <;> first
    | rfl
    | exact absurd h (by simp [Method.isUuid])

/-- Witness for the amended C3 at the `hash` method. -/
theorem run_deterministic_unless_uuid_witness :
    Method.isUuid (.hash "document" "hash") = false ∧
    Method.run g0 dW (.hash "document" "hash") =
      Method.run g1 dW (.hash "document" "hash") :=
  ⟨rfl, run_deterministic_unless_uuid g0 g1 dW (.hash "document" "hash") rfl⟩

/-- A two-column, one-row dataset. -/
def dAB : Dataset := ⟨["a", "b"], [[("a", Value.vInt 1), ("b", Value.vInt 2)]]⟩

/-- C4 counterexample: `drop_column` returns the transformed dataset, but
the formatter's held reference still holds the old one — the methods do
not reassign `self.dataset`. -/
theorem method_result_not_assigned :
    (Method.runState g0 dAB (.drop_column "b")).1 =
      .ok ⟨["a"], [[("a", Value.vInt 1)]]⟩ ∧
    (Method.runState g0 dAB (.drop_column "b")).2 = dAB ∧
    dAB ≠ (⟨["a"], [[("a", Value.vInt 1)]]⟩ : Dataset) :=
  ⟨rfl, rfl, by decide⟩

/-- C4 amended: every individual method leaves the held reference
unchanged; only `__call__` reassigns it, and then the reference ends at
the step it last completed (the final dataset on success, the original on
a raise from `hash`). -/
theorem reference_discipline :
    (∀ (g : Nat → Nat) (d : Dataset) (m : Method),
      (Method.runState g d m).2 = d) ∧
    (∀ (g : Nat → Nat) (d : Dataset) (hc uc : String),
      (callRun g d hc uc).2 =
        match (callRun g d hc uc).1 with
        | .ok d2 => d2
        | .error _ => d) := by
  constructor
  · intro g d m
    rfl
  · intro g d hc uc
    cases h : DatasetFormatter.hash d "document" hc with
    | error e => simp [callRun, h]
    | ok d1 => simp [callRun, h]

/-- One normalized row is a fixed point of the `normalize_text` row
function: re-normalizing returns the row unchanged. -/
theorem normalize_row_fixed (c : String) (l l' : List Row)
    (hf : List.Forall₂
      (fun r r'' =>
        (normalizeValue (Row.getD r c)).map (fun v => r.set c v) = .ok r'')
      l l') :
    List.Forall₂
      (fun r r'' =>
        (normalizeValue (Row.getD r c)).map (fun v => r.set c v) = .ok r'')
      l' l' := by
  induction hf with
  | nil => exact .nil
  | @cons a b l1 l2 hR _ ih =>
    refine .cons ?_ ih
    cases hg : Row.getD a c with
    | vStr s =>
      rw [hg] at hR
      simp only [normalizeValue, Except.map] at hR
      injection hR with hR
      subst hR
      rw [Row.getD_set_self]
      simp only [normalizeValue, pyNormalize_idem, Except.map]
      rw [Row.set_set_self]
    | vInt n =>
      rw [hg] at hR
      simp [normalizeValue, Except.map] at hR
    | vNone =>
      rw [hg] at hR
      simp [normalizeValue, Except.map] at hR

/-- C5: `normalize_text` with the default overwrite target is idempotent —
reapplying it to its own output returns that output unchanged. -/
theorem normalize_text_idempotent (d d' : Dataset) (c : String)
    (h : DatasetFormatter.normalize_text d c none = .ok d') :
    DatasetFormatter.normalize_text d' c none = .ok d' := by
  simp only [DatasetFormatter.normalize_text, DatasetFormatter.targetOrSelf] at h ⊢
  by_cases hc : c ∈ d.column_names
  · rw [if_pos hc, Dataset.mapAddE] at h
    cases hm : mapE
        (fun r => (normalizeValue (r.getD c)).map (fun v => r.set c v)) d.rows with
    | error e =>
      rw [hm] at h
      exact Except.noConfusion h
    | ok rows' =>
      rw [hm, if_pos hc] at h
      injection h with h
      subst h
      rw [if_pos (show c ∈ (⟨d.column_names, rows'⟩ : Dataset).column_names from hc)]
      rw [Dataset.mapAddE]
      have hforall := (mapE_eq_ok_iff _ _ _).1 hm
      have key := normalize_row_fixed c d.rows rows' hforall
      have hm2 := (mapE_eq_ok_iff
        (fun r => (normalizeValue (Row.getD r c)).map (fun v => r.set c v))
        rows' rows').2 key
      rw [hm2]
      simp [hc]
  · rw [if_neg hc] at h
    exact Except.noConfusion h

/-- The fixture for the C5 witness, before normalization. -/
def dN : Dataset := ⟨["document"], [[("document", Value.vStr "  A ")]]⟩

/-- The fixture for the C5 witness, after normalization. -/
def dN2 : Dataset := ⟨["document"], [[("document", Value.vStr "a")]]⟩

/-- Witness for C5: normalizing the already-normalized fixture. -/
theorem normalize_text_idempotent_witness :
    DatasetFormatter.normalize_text dN "document" none = .ok dN2 ∧
    DatasetFormatter.normalize_text dN2 "document" none = .ok dN2 :=
  ⟨by rfl, normalize_text_idempotent dN dN2 "document" (by rfl)⟩

/-- The numeric test fixture: a single column holding 1,2,3,4,5. -/
def dNum : Dataset :=
  ⟨["numerical_column"],
   [[("numerical_column", Value.vInt 1)], [("numerical_column", Value.vInt 2)],
    [("numerical_column", Value.vInt 3)], [("numerical_column", Value.vInt 4)],
    [("numerical_column", Value.vInt 5)]]⟩

/-- C6: `compute_summary` returns the mean, median and population standard
deviation; on the column 1,2,3,4,5 it yields mean 3, median 3 and
std = sqrt 2 (which lies strictly between 1.414 and 1.415). -/
theorem compute_summary_on_one_to_five :
    ∃ s : Summary,
      DatasetFormatter.compute_summary dNum "numerical_column" = .ok s ∧
      s.mean = 3 ∧ s.median = 3 ∧ s.std = Real.sqrt 2 ∧
      (1.414 : ℝ) < s.std ∧ s.std < 1.415 := by
  have hnums : mapE Value.toNum
      (dNum.rows.map (fun r => Row.getD r "numerical_column")) =
      .ok [(1 : ℚ), 2, 3, 4, 5] := by
    norm_num [mapE, Value.toNum, dNum, Row.getD, Row.get, List.find?]
  have hmean : npMean [(1 : ℚ), 2, 3, 4, 5] = 3 := by
    norm_num [npMean]
  have hmed : npMedian [(1 : ℚ), 2, 3, 4, 5] = 3 := by
    norm_num [npMedian, sortQ, insortQ]
  have hvar : npVar [(1 : ℚ), 2, 3, 4, 5] = 2 := by
    norm_num [npVar, npMean]
  have hstd : npStd [(1 : ℚ), 2, 3, 4, 5] = Real.sqrt 2 := by
    rw [npStd, hvar]
    norm_num
  have hlo : (1.414 : ℝ) < Real.sqrt 2 :=
    (Real.lt_sqrt (by norm_num)).2 (by norm_num)
  have hhi : Real.sqrt 2 < 1.415 :=
    (Real.sqrt_lt' (by norm_num)).2 (by norm_num)
  refine ⟨⟨npMean [(1 : ℚ), 2, 3, 4, 5], npMedian [(1 : ℚ), 2, 3, 4, 5],
    npStd [(1 : ℚ), 2, 3, 4, 5]⟩, ?_, hmean, hmed, hstd, ?_, ?_⟩
  · rw [DatasetFormatter.compute_summary, if_pos (by decide), hnums]
  · show (1.414 : ℝ) < npStd [(1 : ℚ), 2, 3, 4, 5]
    rw [hstd]
    exact hlo
  · show npStd [(1 : ℚ), 2, 3, 4, 5] < 1.415
    rw [hstd]
    exact hhi

/-- C8: `__call__` applies `hash` (from the default source column
`"document"`) and then `uuid`, reassigning the held reference to each
step's result; the final dataset carries both columns, the hash column
holding the SHA-256 digests of the original document values and the uuid
column canonical version-4 UUID strings. -/
theorem call_applies_hash_then_uuid (g : Nat → Nat) (d : Dataset)
    (hc uc : String) (hwf : Wellformed d)
    (hdoc : "document" ∈ d.column_names) (hne : hc ≠ uc) :
    ∃ d', callRun g d hc uc = (.ok d', d') ∧
      hc ∈ d'.column_names ∧ uc ∈ d'.column_names ∧
      d'.rows.length = d.rows.length ∧
      ∀ i (hi : i < d.rows.length) (hi' : i < d'.rows.length),
        Row.get d'.rows[i] hc =
          some (.vStr (sha256hex (strBytes (Value.pyStr
            (Row.getD d.rows[i] "document"))))) ∧
        ∃ u, Row.get d'.rows[i] uc = some (.vStr u) ∧ IsUuid4String u := by
  have hhash : DatasetFormatter.hash d "document" hc =
      .ok (d.mapAdd hc (fun x => .vStr (generate_hash (x.getD "document")))) := by
    rw [DatasetFormatter.hash, if_pos hdoc]
  refine ⟨DatasetFormatter.uuid g
    (d.mapAdd hc (fun x => .vStr (generate_hash (x.getD "document")))) uc,
    ?_, ?_, ?_, ?_, ?_⟩
  · rw [callRun, hhash]
  · exact mapAddIdx_column_names_mono _ _ _ _ (mapAdd_mem_column_names _ _ _)
  · exact mapAddIdx_mem_column_names _ _ _
  · simp only [DatasetFormatter.uuid]
    rw [mapAddIdx_rows_length, mapAdd_rows_length]
  · intro i hi hi'
    have hi1 : i < (d.mapAdd hc
        (fun x => .vStr (generate_hash (x.getD "document")))).rows.length := by
      rw [mapAdd_rows_length]
      exact hi
    simp only [DatasetFormatter.uuid] at hi' ⊢
    rw [mapAddIdx_rows_getElem _ _ _ i hi1 hi']
    constructor
    · rw [Row.get_set_ne _ _ _ _ hne, mapAdd_rows_getElem _ _ _ i hi hi1,
        Row.get_set_self]
      rfl
    · refine ⟨uuid4str (g i), ?_, uuid4str_canonical (g i)⟩
      rw [Row.get_set_self]

/-- Witness for C8 at the test fixture. -/
theorem call_applies_hash_then_uuid_witness :
    Wellformed dW ∧ "document" ∈ dW.column_names ∧ "hash" ≠ "uuid" ∧
    (∃ d', callRun g0 dW "hash" "uuid" = (.ok d', d') ∧
      "hash" ∈ d'.column_names ∧ "uuid" ∈ d'.column_names ∧
      d'.rows.length = dW.rows.length ∧
      ∀ i (hi : i < dW.rows.length) (hi' : i < d'.rows.length),
        Row.get d'.rows[i] "hash" =
          some (.vStr (sha256hex (strBytes (Value.pyStr
            (Row.getD dW.rows[i] "document"))))) ∧
        ∃ u, Row.get d'.rows[i] "uuid" = some (.vStr u) ∧ IsUuid4String u) :=
  ⟨by decide, by decide, by decide,
    call_applies_hash_then_uuid g0 dW "hash" "uuid" (by decide) (by decide)
      (by decide)⟩

/-- C9: because `generate_hash` first applies `str()`, `hash` succeeds on
every value of a present column (numbers and `None` included), while the
row function of `normalize_text` succeeds exactly on strings. -/
theorem hash_total_normalize_presupposes_strings :
    (∀ (g : Nat → Nat) (d : Dataset) (c h : String), c ∈ d.column_names →
      ∃ d', Method.run g d (.hash c h) = .ok d') ∧
    (∀ v : Value, (∃ w, normalizeValue v = .ok w) ↔ ∃ s, v = .vStr s) := by
  constructor
  · intro g d c h hc
    refine ⟨d.mapAdd h (fun x => .vStr (generate_hash (x.getD c))), ?_⟩
    show DatasetFormatter.hash d c h = _
    rw [DatasetFormatter.hash, if_pos hc]
  · intro v
    cases v with
    | vStr s =>
      exact ⟨fun _ => ⟨s, rfl⟩, fun _ => ⟨.vStr (pyNormalize s), rfl⟩⟩
    | vInt n =>
      constructor
      · rintro ⟨w, hw⟩
        exact Except.noConfusion hw
      · rintro ⟨s, hs⟩
        exact Value.noConfusion hs
    | vNone =>
      constructor
      · rintro ⟨w, hw⟩
        exact Except.noConfusion hw
      · rintro ⟨s, hs⟩
        exact Value.noConfusion hs

/-- Witness for C9: hashing an integer column succeeds; normalizing an
integer value raises. -/
theorem hash_total_normalize_presupposes_strings_witness :
    "a" ∈ dAB.column_names ∧
    (∃ d', Method.run g0 dAB (.hash "a" "h") = .ok d') ∧
    ((∃ w, normalizeValue (Value.vInt 5) = .ok w) ↔
      ∃ s, Value.vInt 5 = Value.vStr s) :=
  ⟨by decide,
    hash_total_normalize_presupposes_strings.1 g0 dAB "a" "h" (by decide),
    hash_total_normalize_presupposes_strings.2 (Value.vInt 5)⟩

/-- Statement that `d'` differs from `d` at most in column `k`: same schema, same row
count, and at every row every column other than `k` reads the same. -/
def OverwritesOnly (d d' : Dataset) (k : String) : Prop :=
  d'.column_names = d.column_names ∧
  d'.rows.length = d.rows.length ∧
  ∀ i (hi : i < d.rows.length) (hi' : i < d'.rows.length),
    ∀ k2, k2 ≠ k → Row.get d'.rows[i] k2 = Row.get d.rows[i] k2

theorem mapAdd_overwritesOnly (d : Dataset) (k : String) (f : Row → Value)
    (hk : k ∈ d.column_names) : OverwritesOnly d (d.mapAdd k f) k := by
  refine ⟨mapAdd_column_names_of_mem d k f hk, mapAdd_rows_length d k f, ?_⟩
  intro i hi hi' k2 hk2
  rw [mapAdd_rows_getElem d k f i hi hi', Row.get_set_ne _ _ _ _ hk2]

theorem mapAddIdx_overwritesOnly (d : Dataset) (k : String)
    (f : Nat → Row → Value) (hk : k ∈ d.column_names) :
    OverwritesOnly d (d.mapAddIdx k f) k := by
  refine ⟨mapAddIdx_column_names_of_mem d k f hk,
    mapAddIdx_rows_length d k f, ?_⟩
  intro i hi hi' k2 hk2
  rw [mapAddIdx_rows_getElem d k f i hi hi', Row.get_set_ne _ _ _ _ hk2]

theorem mapAddE_ok_spec (d d' : Dataset) (k : String)
    (f : Row → Except String Value) (hk : k ∈ d.column_names)
    (h : d.mapAddE k f = .ok d') :
    OverwritesOnly d d' k ∧
    ∀ i (hi : i < d.rows.length) (hi' : i < d'.rows.length),
      ∃ v, f d.rows[i] = .ok v ∧ Row.get d'.rows[i] k = some v := by
  rw [Dataset.mapAddE] at h
  cases hm : mapE (fun r => (f r).map (fun v => r.set k v)) d.rows with
  | error e =>
    rw [hm] at h
    exact Except.noConfusion h
  | ok rows' =>
    rw [hm, if_pos hk] at h
    injection h with h
    subst h
    have hforall := (mapE_eq_ok_iff _ _ _).1 hm
    rw [List.forall₂_iff_get] at hforall
    constructor
    · refine ⟨rfl, hforall.1.symm, ?_⟩
      intro i hi hi' k2 hk2
      have hrel := hforall.2 i hi hi'
      cases hfv : f (d.rows.get ⟨i, hi⟩) with
      | error e =>
        rw [hfv] at hrel
        exact Except.noConfusion hrel
      | ok v =>
        rw [hfv] at hrel
        simp only [Except.map] at hrel
        injection hrel with hrel
        show Row.get (List.get _ ⟨i, hi'⟩) k2 = Row.get (List.get _ ⟨i, hi⟩) k2
        rw [← hrel, Row.get_set_ne _ _ _ _ hk2]
    · intro i hi hi'
      have hrel := hforall.2 i hi hi'
      cases hfv : f (d.rows.get ⟨i, hi⟩) with
      | error e =>
        rw [hfv] at hrel
        exact Except.noConfusion hrel
      | ok v =>
        rw [hfv] at hrel
        simp only [Except.map] at hrel
        injection hrel with hrel
        refine ⟨v, rfl, ?_⟩
        show Row.get (List.get _ ⟨i, hi'⟩) k = some v
        rw [← hrel, Row.get_set_self]

/-- A dataset owning a column literally named by the empty string, with a
source column `"a"` holding an unnormalized value. -/
def dE : Dataset :=
  ⟨["a", ""], [[("a", Value.vStr " B "), ("", Value.vStr "x")]]⟩

/-- The dataset the program produces from `dE`: the source column `"a"` is
normalized in place, the `""` column untouched. -/
def dE2 : Dataset :=
  ⟨["a", ""], [[("a", Value.vStr "b"), ("", Value.vStr "x")]]⟩

/-- C10 counterexample: `normalize_text` with the existing target column
`""` does not overwrite that column — the falsy empty-string target falls
back to the source column (datasets.py line 229), so the `""` column is
unchanged and another column (`"a"`) is affected, contradicting the claim
at this input. -/
theorem normalize_empty_target_overwrites_source :
    "" ∈ dE.column_names ∧
    DatasetFormatter.normalize_text dE "a" (some "") = .ok dE2 ∧
    Row.get (dE2.rows.getD 0 []) "" = Row.get (dE.rows.getD 0 []) "" ∧
    Row.get (dE2.rows.getD 0 []) "a" ≠ Row.get (dE.rows.getD 0 []) "a" :=
  ⟨by decide, by rfl, by decide, by decide⟩

/-- C10 amended: when the target column of `hash`, `uuid` or
`add_constant_column` — or a nonempty target column name of
`normalize_text` — already exists, the operation silently overwrites that
column with the newly computed values (the digest, the fresh UUID string,
the normalized text, the constant): no error, no new column, and no other
column affected.  A `normalize_text` target literally named `""` is falsy
in the source and falls back to overwriting the source column instead. -/
theorem overwrite_existing_target (g : Nat → Nat) (d : Dataset)
    (c k : String) (v : Value) (hk : k ∈ d.column_names) :
    (c ∈ d.column_names → ∃ d', DatasetFormatter.hash d c k = .ok d' ∧
      OverwritesOnly d d' k ∧
      ∀ i (hi : i < d.rows.length) (hi' : i < d'.rows.length),
        Row.get d'.rows[i] k =
          some (.vStr (generate_hash (Row.getD d.rows[i] c)))) ∧
    (OverwritesOnly d (DatasetFormatter.uuid g d k) k ∧
      ∀ i (hi : i < d.rows.length)
        (hi' : i < (DatasetFormatter.uuid g d k).rows.length),
        Row.get (DatasetFormatter.uuid g d k).rows[i] k =
          some (.vStr (uuid4str (g i)))) ∧
    (∀ d', k ≠ "" → DatasetFormatter.normalize_text d c (some k) = .ok d' →
      OverwritesOnly d d' k ∧
      ∀ i (hi : i < d.rows.length) (hi' : i < d'.rows.length),
        ∃ s, Row.getD d.rows[i] c = .vStr s ∧
          Row.get d'.rows[i] k = some (.vStr (pyNormalize s))) ∧
    (OverwritesOnly d (DatasetFormatter.add_constant_column d k v) k ∧
      ∀ i (hi : i < d.rows.length)
        (hi' : i < (DatasetFormatter.add_constant_column d k v).rows.length),
        Row.get (DatasetFormatter.add_constant_column d k v).rows[i] k =
          some v) := by
  refine ⟨?_, ⟨?_, ?_⟩, ?_, ?_, ?_⟩
  · intro hc
    refine ⟨d.mapAdd k (fun x => .vStr (generate_hash (x.getD c))), ?_,
      mapAdd_overwritesOnly d k _ hk, ?_⟩
    · rw [DatasetFormatter.hash, if_pos hc]
    · intro i hi hi'
      rw [mapAdd_rows_getElem d k _ i hi hi', Row.get_set_self]
  · exact mapAddIdx_overwritesOnly d k _ hk
  · intro i hi hi'
    simp only [DatasetFormatter.uuid] at hi' ⊢
    rw [mapAddIdx_rows_getElem _ _ _ i hi hi', Row.get_set_self]
  · intro d' hke h
    simp only [DatasetFormatter.normalize_text, DatasetFormatter.targetOrSelf] at h
    rw [if_neg hke] at h
    by_cases hc : c ∈ d.column_names
    · rw [if_pos hc] at h
      obtain ⟨ho, hv⟩ := mapAddE_ok_spec d d' k _ hk h
      refine ⟨ho, ?_⟩
      intro i hi hi'
      obtain ⟨w, hfw, hget⟩ := hv i hi hi'
      cases hg : Row.getD d.rows[i] c with
      | vStr s =>
        rw [hg] at hfw
        simp only [normalizeValue] at hfw
        injection hfw with hfw
        subst hfw
        exact ⟨s, rfl, hget⟩
      | vInt n =>
        rw [hg] at hfw
        exact Except.noConfusion hfw
      | vNone =>
        rw [hg] at hfw
        exact Except.noConfusion hfw
    · rw [if_neg hc] at h
      exact Except.noConfusion h
  · exact mapAdd_overwritesOnly d k _ hk
  · intro i hi hi'
    simp only [DatasetFormatter.add_constant_column] at hi' ⊢
    rw [mapAdd_rows_getElem d k _ i hi hi', Row.get_set_self]

/-- Witness for the amended C10 on the two-column fixture, overwriting
column `b`. -/
theorem overwrite_existing_target_witness :
    "b" ∈ dAB.column_names ∧
    (("a" ∈ dAB.column_names →
      ∃ d', DatasetFormatter.hash dAB "a" "b" = .ok d' ∧
        OverwritesOnly dAB d' "b" ∧
        ∀ i (hi : i < dAB.rows.length) (hi' : i < d'.rows.length),
          Row.get d'.rows[i] "b" =
            some (.vStr (generate_hash (Row.getD dAB.rows[i] "a")))) ∧
    (OverwritesOnly dAB (DatasetFormatter.uuid g0 dAB "b") "b" ∧
      ∀ i (hi : i < dAB.rows.length)
        (hi' : i < (DatasetFormatter.uuid g0 dAB "b").rows.length),
        Row.get (DatasetFormatter.uuid g0 dAB "b").rows[i] "b" =
          some (.vStr (uuid4str (g0 i)))) ∧
    (∀ d', "b" ≠ "" →
      DatasetFormatter.normalize_text dAB "a" (some "b") = .ok d' →
      OverwritesOnly dAB d' "b" ∧
      ∀ i (hi : i < dAB.rows.length) (hi' : i < d'.rows.length),
        ∃ s, Row.getD dAB.rows[i] "a" = .vStr s ∧
          Row.get d'.rows[i] "b" = some (.vStr (pyNormalize s))) ∧
    (OverwritesOnly dAB
        (DatasetFormatter.add_constant_column dAB "b" (Value.vInt 9)) "b" ∧
      ∀ i (hi : i < dAB.rows.length)
        (hi' : i < (DatasetFormatter.add_constant_column dAB "b"
          (Value.vInt 9)).rows.length),
        Row.get (DatasetFormatter.add_constant_column dAB "b"
          (Value.vInt 9)).rows[i] "b" = some (Value.vInt 9))) :=
  ⟨by decide, overwrite_existing_target g0 dAB "a" "b" (Value.vInt 9) (by decide)⟩
